import Mathlib

/-!
Shallow embedding of the building-energy dashboard core
(billing.py, schedules.py, tuya_api_mongo.py, helpers.py).

Conventions of the embedding:
* Python floats are modelled as rationals; Python `round(x, n)` (round to
  nearest) is modelled with Mathlib `round` scaled by a power of ten.  No
  statement below depends on tie behaviour of rounding.
* Python aware datetimes in the fixed UTC+6 zone (helpers.dhaka_tz) are
  modelled as civil-field records `CivilDT`; comparison of aware datetimes
  is instant comparison, embedded as comparison of `toMicros` (microseconds
  since the epoch, on the local civil fields).  Conversion
  `astimezone(utc).replace(tzinfo=None)` is subtraction of the fixed offset.
* Mongo-stored naive-UTC timestamps are integers (microseconds).
-/

namespace EnergyApp

/-- helpers.dhaka_tz: fixed UTC+6 offset, in microseconds. -/
def tzOffsetMicros : ℤ := 21600000000

/-- Civil (wall-clock) datetime fields, as in Python `datetime`. -/
structure CivilDT where
  year : ℤ
  month : ℤ
  day : ℤ
  hour : ℤ
  minute : ℤ
  second : ℤ
  usec : ℤ
deriving DecidableEq

/-- Days since 1970-01-01 of a proleptic-Gregorian civil date
(standard civil-from-days inverse; matches Python `datetime.toordinal`
shifted to the Unix epoch). -/
def daysFromCivil (y m d : ℤ) : ℤ :=
  let y' : ℤ := if m ≤ 2 then y - 1 else y
  let era : ℤ := Int.fdiv y' 400
  let yoe : ℤ := y' - era * 400
  let mp : ℤ := if m ≤ 2 then m + 9 else m - 3
  let doy : ℤ := Int.fdiv (153 * mp + 2) 5 + d - 1
  let doe : ℤ := yoe * 365 + Int.fdiv yoe 4 - Int.fdiv yoe 100 + doy
  era * 146097 + doe - 719468

/-- Microseconds since the Unix epoch of a civil datetime read in a fixed
zone (no offset applied; this is the "civil instant" used to compare two
aware datetimes of the same zone, exactly Python's aware comparison). -/
def toMicros (t : CivilDT) : ℤ :=
  daysFromCivil t.year t.month t.day * 86400000000 +
    t.hour * 3600000000 + t.minute * 60000000 + t.second * 1000000 + t.usec

/-- Python `astimezone(timezone.utc).replace(tzinfo=None)` on a Dhaka-aware
datetime: the naive-UTC instant, i.e. the civil instant minus the offset. -/
def toNaiveUTC (t : CivilDT) : ℤ := toMicros t - tzOffsetMicros

/-- Python `datetime.weekday()`: Monday = 0 .. Sunday = 6
(1970-01-01 was a Thursday, weekday 3). -/
def weekdayOf (t : CivilDT) : ℤ := (daysFromCivil t.year t.month t.day + 3) % 7

/-- Python `.date()` equality of two same-zone datetimes. -/
def sameLocalDate (a b : CivilDT) : Prop :=
  a.year = b.year ∧ a.month = b.month ∧ a.day = b.day

instance (a b : CivilDT) : Decidable (sameLocalDate a b) := by
  unfold sameLocalDate; infer_instance

/-! ## Rate Calculator (billing.py `_bd_domestic_bill`) -/

/-- Python `round(x, 2)`. -/
def round2 (q : ℚ) : ℚ := (round (q * 100) : ℚ) / 100

/-- Python `round(x, 3)`. -/
def round3 (q : ℚ) : ℚ := (round (q * 1000) : ℚ) / 1000

/-- The slab table of `_bd_domestic_bill`; `none` is `float("inf")`. -/
def slabs : List (Option ℚ × ℚ) :=
  [(some 75, 5.26), (some 200, 7.20), (some 300, 7.59),
   (some 400, 8.02), (some 600, 12.67), (none, 14.61)]

/-- The slab loop of `_bd_domestic_bill`: walk the slab list, consuming
`span = min(remaining, upper - last_upper)` at each rate; the `if span > 0`
guard skips a slab (without advancing `last_upper`) when the span is not
positive, and the loop breaks as soon as `remaining ≤ 0`. -/
def slabWalk : List (Option ℚ × ℚ) → ℚ → ℚ → ℚ → ℚ
  | [], _, _, total => total
  | (upper, rate) :: rest, remaining, last_upper, total =>
    if remaining ≤ 0 then total
    else
      let span := match upper with
        | some up => min remaining (up - last_upper)
        | none => remaining
      if 0 < span then
        slabWalk rest (remaining - span)
          (match upper with | some up => up | none => last_upper)
          (total + span * rate)
      else
        slabWalk rest remaining last_upper total

/-- billing.py `_bd_domestic_bill`: clamp negatives to 0, flat rate 4.633
up to 50 units, otherwise the slab walk from zero; round to 2 decimals. -/
def bd_domestic_bill (units_kwh : ℚ) : ℚ :=
  let u := max 0 units_kwh
  if u ≤ 50 then round2 (u * 4.633)
  else round2 (slabWalk slabs u 0 0)

/-- Modelled from the spec: the slab walk as the spec words it (consume
`min(remaining, slabUpper - previousUpper)`, accumulate, subtract, advance;
stop when `remaining ≤ 0`) — with no positivity guard on the span. -/
def slabWalkSpec : List (Option ℚ × ℚ) → ℚ → ℚ → ℚ → ℚ
  | [], _, _, total => total
  | (upper, rate) :: rest, remaining, last_upper, total =>
    if remaining ≤ 0 then total
    else
      let span := match upper with
        | some up => min remaining (up - last_upper)
        | none => remaining
      slabWalkSpec rest (remaining - span)
        (match upper with | some up => up | none => last_upper)
        (total + span * rate)

/-- Modelled from the spec: the reference tiered bill of §4.1. -/
def bd_bill_spec (units_kwh : ℚ) : ℚ :=
  let u := max 0 units_kwh
  if u ≤ 50 then round2 (u * 4.633)
  else round2 (slabWalkSpec slabs u 0 0)

/-! ## Readings and data frames (tuya_api_mongo.py, billing.py) -/

/-- One stored reading row.  Fields are optional: in the pandas frame a
column exists iff some document carried the key, and max/min/`.get` skip
or default the missing entries; `none` models a missing field. -/
structure RRow where
  timestamp : ℤ
  power : Option ℚ
  voltage : Option ℚ
  energy_kWh : Option ℚ
deriving DecidableEq

/-- pandas `max()` over a non-empty column (0 for the empty list, which the
callers below never reach). -/
def colMax : List ℚ → ℚ
  | [] => 0
  | x :: xs => xs.foldl max x

/-- pandas `min()` over a non-empty column. -/
def colMin : List ℚ → ℚ
  | [] => 0
  | x :: xs => xs.foldl min x

/-- billing.py `_units_between`: 0 if the frame is empty or the
`energy_kWh` column is absent (no row has the field), else max − min of
the present energy values (pandas max/min skip missing entries). -/
def units_between (df : List RRow) : ℚ :=
  let es := df.filterMap RRow.energy_kWh
  if df.isEmpty || es.isEmpty then 0
  else colMax es - colMin es

/-- The stored readings, per device id (the Mongo collections). -/
structure StoreEnv where
  readings : String → List RRow
  latest1 : String → List RRow

/-- tuya_api_mongo.py `range_docs` filter: `{"timestamp": {"$gte": start,
"$lte": end}}` — both bounds inclusive.  (The ascending sort is dropped:
every embedded consumer is order-insensitive.) -/
def range_member (start fin ts : ℤ) : Bool :=
  decide (start ≤ ts) && decide (ts ≤ fin)

/-- tuya_api_mongo.py `range_docs` on the stored readings of a device. -/
def range_docs (env : StoreEnv) (device_id : String) (start fin : ℤ) : List RRow :=
  (env.readings device_id).filter (fun r => range_member start fin r.timestamp)

/-! ## Window Resolver (billing.py `_day_window_local`, `_month_window_local`) -/

/-- billing.py `_day_window_local`: local midnight .. local
23:59:59.999999 of `now`'s local date, both converted to naive UTC. -/
def day_window_local (now : CivilDT) : ℤ × ℤ :=
  let day_start_local : CivilDT := ⟨now.year, now.month, now.day, 0, 0, 0, 0⟩
  let day_end_local : CivilDT := ⟨now.year, now.month, now.day, 23, 59, 59, 999999⟩
  (toNaiveUTC day_start_local, toNaiveUTC day_end_local)

/-- billing.py `_month_window_local`: local midnight of day 1 of `now`'s
month .. local midnight of day 1 of the next month (December rolls over to
January of the next year), both converted to naive UTC. -/
def month_window_local (now : CivilDT) : ℤ × ℤ :=
  let m_start_local : CivilDT := ⟨now.year, now.month, 1, 0, 0, 0, 0⟩
  let next_month_local : CivilDT :=
    if now.month = 12 then ⟨now.year + 1, 1, 1, 0, 0, 0, 0⟩
    else ⟨now.year, now.month + 1, 1, 0, 0, 0, 0⟩
  (toNaiveUTC m_start_local, toNaiveUTC next_month_local)

/-- billing.py `daily_monthly_for` (clock passed explicitly):
(units today, cost today, units this month, cost this month). -/
def daily_monthly_for (env : StoreEnv) (device_id : String) (now : CivilDT) :
    ℚ × ℚ × ℚ × ℚ :=
  let dw := day_window_local now
  let d_units := round3 (units_between (range_docs env device_id dw.1 dw.2))
  let d_cost := bd_domestic_bill d_units
  let mw := month_window_local now
  let m_units := round3 (units_between (range_docs env device_id mw.1 mw.2))
  let m_cost := bd_domestic_bill m_units
  (d_units, d_cost, m_units, m_cost)

/-! ## Usage Aggregator (billing.py) -/

/-- billing.py `_latest_power_voltage`: on the `latest_docs(did, n=1)`
frame, (0, None) if empty, else the last row's power (`or 0` defaulting)
and its voltage (kept as None when absent). -/
def latest_power_voltage (env : StoreEnv) (device_id : String) : ℚ × Option ℚ :=
  match (env.latest1 device_id).getLast? with
  | none => (0, none)
  | some row => (row.power.getD 0, row.voltage)

/-- billing.py `aggregate_totals_all_devices` (clock passed explicitly),
with the source's accumulation loops as left folds:
(power now, presented voltage, kWh today, bill today, kWh month, bill month). -/
def aggregate_totals_all_devices (env : StoreEnv) (now : CivilDT)
    (devices : List String) : ℚ × ℚ × ℚ × ℚ × ℚ × ℚ :=
  let total_power_now :=
    devices.foldl (fun acc did => acc + (latest_power_voltage env did).1) 0
  let latest_voltages :=
    devices.foldl (fun acc did =>
      match (latest_power_voltage env did).2 with
      | some v => acc ++ [v]
      | none => acc) []
  let present_voltage :=
    if latest_voltages.isEmpty then 0 else round2 (colMax latest_voltages)
  let dw := day_window_local now
  let total_kwh_today :=
    round3 (devices.foldl
      (fun acc did => acc + units_between (range_docs env did dw.1 dw.2)) 0)
  let today_bill_bdt := bd_domestic_bill total_kwh_today
  let mw := month_window_local now
  let total_kwh_month :=
    round3 (devices.foldl
      (fun acc did => acc + units_between (range_docs env did mw.1 mw.2)) 0)
  let month_bill_bdt := bd_domestic_bill total_kwh_month
  (round2 total_power_now, present_voltage, total_kwh_today, today_bill_bdt,
   total_kwh_month, month_bill_bdt)

/-! ## Schedule Store and Due-Check & Executor (schedules.py) -/

/-- A calendar date (the `date` field is stored as `date.isoformat()` and
re-parsed as `"Y-M-D".split("-")`; we keep it structured). -/
structure SDate where
  year : ℤ
  month : ℤ
  day : ℤ
deriving DecidableEq

/-- A persisted schedule document.  `time_hm` is the parsed `time_str`
("HH:MM"); `none` stands for a malformed string (the scan falls back to
00:00).  `date` is `none` when the key is absent or unparsable (the scan
skips the record).  `weekdays`/`date` are `none` when the key is absent
from the document. -/
structure SchedDoc where
  id : ℕ
  device_id : String
  device_name : String
  building : String
  floor : String
  room : String
  action : String
  kind : String
  time_hm : Option (ℤ × ℤ)
  date : Option SDate
  weekdays : Option (List ℤ)
  is_active : Bool
  created_at : CivilDT
  last_run_at : Option CivilDT
deriving DecidableEq

/-- schedules.py `create_schedule`.  `storeOk` models a reachable store
(`_get_db_and_collections` returning collections), `insertOk` a
successful `insert_one`; `.error` is a raised `ValueError`, `.ok none` the
`None` return, `.ok (some doc)` the persisted document. -/
def create_schedule (storeOk insertOk : Bool)
    (device_id device_name building floor room action kind : String)
    (date_value : Option SDate) (time_value : ℤ × ℤ)
    (weekdays : Option (List ℤ)) (now : CivilDT) (newId : ℕ) :
    Except String (Option SchedDoc) :=
  if storeOk = false then .ok none
  else if ¬(action = "on" ∨ action = "off") then
    .error "action must be on or off"
  else if ¬(kind = "once" ∨ kind = "weekly") then
    .error "kind must be once or weekly"
  else if kind = "once" ∧ date_value = none then
    .error "date_value is required for one-time schedule"
  else
    let doc : SchedDoc :=
      { id := newId, device_id := device_id, device_name := device_name,
        building := building, floor := floor, room := room,
        action := action, kind := kind,
        time_hm := some time_value,
        date := if kind = "once" then date_value else none,
        weekdays := if kind = "once" then none else some (weekdays.getD []),
        is_active := true, created_at := now, last_run_at := none }
    if insertOk then .ok (some doc) else .ok none

instance : DecidableEq (Except String String)
  | .ok a, .ok b =>
    if h : a = b then isTrue (by rw [h]) else isFalse (by simp [h])
  | .ok _, .error _ => isFalse (by simp)
  | .error _, .ok _ => isFalse (by simp)
  | .error a, .error b =>
    if h : a = b then isTrue (by rw [h]) else isFalse (by simp [h])

/-- One row of the `schedule_logs` audit collection. -/
structure LogEntry where
  schedule_id : ℕ
  device_id : String
  action : String
  executed_at : CivilDT
  result : Except String String
deriving DecidableEq

/-- The device-control capability: `get_token` followed by
`control_device(device_id, token, "switch_1", value)`; `.error e` is a
raised exception with message `e`. -/
def Ctl := String → Bool → Except String String

/-- schedules.py `_run_action`: issue the command, catching any failure
into an `{error}` result, and build the unconditional audit-log row. -/
def run_action (ctl : Ctl) (now : CivilDT) (doc : SchedDoc) : LogEntry :=
  let value := doc.action = "on"
  let res := ctl doc.device_id value
  { schedule_id := doc.id, device_id := doc.device_id, action := doc.action,
    executed_at := now, result := res }

/-- Python `datetime(y, m, d, hh, mm, tzinfo=dhaka_tz)` built from a ONCE
record stored date and parsed time. -/
def occDT (d : SDate) (hm : ℤ × ℤ) : CivilDT :=
  ⟨d.year, d.month, d.day, hm.1, hm.2, 0, 0⟩

/-- Python `datetime(now.year, now.month, now.day, hh, mm)` in the local
zone: the occurrence of a WEEKLY schedule today. -/
def todayAt (now : CivilDT) (hm : ℤ × ℤ) : CivilDT :=
  ⟨now.year, now.month, now.day, hm.1, hm.2, 0, 0⟩

/-- The body of the `run_due_schedules` loop for one document: the emitted
audit-log row (if the schedule fired) and the document as later scans see
it (the `last_run_at` write-back taken as succeeding and visible).
Inactive documents are never scanned (`find({"is_active": True})`). -/
def schedule_step (ctl : Ctl) (now : CivilDT) (doc : SchedDoc) :
    Option LogEntry × SchedDoc :=
  if doc.is_active = false then (none, doc)
  else
    let hm := doc.time_hm.getD (0, 0)
    if doc.kind = "once" then
      match doc.date with
      | none => (none, doc)
      | some d =>
        let sched_dt := occDT d hm
        let last_ok : Bool :=
          match doc.last_run_at with
          | none => true
          | some lr => decide (toMicros lr < toMicros sched_dt)
        if toMicros sched_dt ≤ toMicros now ∧ last_ok = true then
          (some (run_action ctl now doc), { doc with last_run_at := some now })
        else (none, doc)
    else if doc.kind = "weekly" then
      let wds := doc.weekdays.getD []
      if weekdayOf now ∈ wds then
        let sched_dt := todayAt now hm
        if toMicros sched_dt ≤ toMicros now then
          let already_today : Bool :=
            match doc.last_run_at with
            | none => false
            | some lr => decide (sameLocalDate lr now)
          if already_today then (none, doc)
          else
            (some (run_action ctl now doc), { doc with last_run_at := some now })
        else (none, doc)
      else (none, doc)
    else (none, doc)

/-- schedules.py `run_due_schedules` over the scanned documents: the
audit-log rows appended and the updated documents. -/
def run_due_schedules (ctl : Ctl) (now : CivilDT) (docs : List SchedDoc) :
    List LogEntry × List SchedDoc :=
  (docs.filterMap (fun d => (schedule_step ctl now d).1),
   docs.map (fun d => (schedule_step ctl now d).2))

/-- Repeated due-check invocations on one schedule, the updated record
visible to each later scan: number of commands issued and final record. -/
def run_scans (ctl : Ctl) (doc : SchedDoc) (times : List CivilDT) :
    ℕ × SchedDoc :=
  times.foldl (fun acc t =>
    let r := schedule_step ctl t acc.2
    (acc.1 + (if r.1.isSome then 1 else 0), r.2)) (0, doc)

/-- Repeated due-check invocations where the operator may also rewrite the
schedule's time-of-day before each scan (each scan sees the pair of the
current `time_str` and the scan instant). -/
def run_scans_weekly (ctl : Ctl) (doc : SchedDoc)
    (scans : List ((ℤ × ℤ) × CivilDT)) : ℕ × SchedDoc :=
  scans.foldl (fun acc s =>
    let r := schedule_step ctl s.2 { acc.2 with time_hm := some s.1 }
    (acc.1 + (if r.1.isSome then 1 else 0), r.2)) (0, doc)

/-- Finite upper bounds strictly increase along a slab list, starting
above the given previous upper (holds for the concrete table). -/
def uppersChain : ℚ → List (Option ℚ × ℚ) → Prop
  | _, [] => True
  | lu, (some up, _) :: rest => lu < up ∧ uppersChain up rest
  | _, (none, _) :: _ => True

/-! ## Concrete instances used by witnesses and counterexamples -/

/-- A concrete local scan instant: 2024-12-15 10:30 local (tests the
December → January rollover of the month window). -/
def cNow4 : CivilDT := ⟨2024, 12, 15, 10, 30, 0, 0⟩

/-- A store with one device `"d"` holding a mid-December reading and a
reading stamped exactly at the month-window end instant. -/
def cEnv4 : StoreEnv :=
  { readings := fun did =>
      if did = "d" then
        [⟨toNaiveUTC ⟨2024, 12, 10, 0, 0, 0, 0⟩, none, none, some 10⟩,
         ⟨(month_window_local cNow4).2, none, none, some 15⟩]
      else [],
    latest1 := fun _ => [] }

/-- A device-control capability that always succeeds. -/
def cCtlOk : Ctl := fun _ _ => .ok "ok"

/-- A device-control capability that always raises. -/
def cCtlErr : Ctl := fun _ _ => .error "boom"

/-- A concrete ONCE schedule whose occurrence (2025-01-01 09:00 local) is
in the past relative to the scan instants below, `last_run_at = None`. -/
def cDoc1 : SchedDoc :=
  { id := 1, device_id := "dev1", device_name := "plug", building := "b1",
    floor := "f1", room := "r1", action := "on", kind := "once",
    time_hm := some (9, 0), date := some ⟨2025, 1, 1⟩, weekdays := none,
    is_active := true, created_at := ⟨2024, 12, 31, 8, 0, 0, 0⟩,
    last_run_at := none }

/-- A concrete WEEKLY schedule: 09:00 on Mondays and Thursdays. -/
def cDoc2 : SchedDoc :=
  { id := 2, device_id := "dev2", device_name := "plug", building := "b1",
    floor := "f1", room := "r1", action := "off", kind := "weekly",
    time_hm := some (9, 0), date := none, weekdays := some [0, 3],
    is_active := true, created_at := ⟨2024, 12, 31, 8, 0, 0, 0⟩,
    last_run_at := none }

/-- The schedule used by the C5 witness: a well-formed ONCE record. -/
def cNow5 : CivilDT := ⟨2025, 1, 10, 12, 0, 0, 0⟩

/-- The document `create_schedule` persists for the C5 witness call. -/
def cDoc5once : SchedDoc :=
  { id := 3, device_id := "d5", device_name := "dev", building := "b",
    floor := "f", room := "r", action := "on", kind := "once",
    time_hm := some (8, 0), date := some ⟨2025, 1, 1⟩, weekdays := none,
    is_active := true, created_at := cNow5, last_run_at := none }

/-- The document `create_schedule` persists for a WEEKLY request carrying
an empty weekday set. -/
def cDoc5weekly : SchedDoc :=
  { id := 7, device_id := "d5", device_name := "dev", building := "b",
    floor := "f", room := "r", action := "on", kind := "weekly",
    time_hm := some (9, 30), date := none, weekdays := some [],
    is_active := true, created_at := cNow5, last_run_at := none }

/-- A concrete due ONCE schedule used by the C6 witness. -/
def cDoc6 : SchedDoc :=
  { id := 6, device_id := "dev6", device_name := "plug", building := "b1",
    floor := "f1", room := "r1", action := "on", kind := "once",
    time_hm := some (7, 30), date := some ⟨2025, 2, 1⟩, weekdays := none,
    is_active := true, created_at := ⟨2025, 1, 31, 8, 0, 0, 0⟩,
    last_run_at := none }

/-- The C6 witness scan instant (past the occurrence of `cDoc6`). -/
def cNow6 : CivilDT := ⟨2025, 2, 1, 8, 0, 0, 0⟩

/-- Scan instant for the C8 concrete instance: 2025-03-10 12:00 local. -/
def cNow8 : CivilDT := ⟨2025, 3, 10, 12, 0, 0, 0⟩

/-- Two devices each consuming 100 kWh today, with latest voltages
231 V and 225 V and latest powers 120 W and 80 W. -/
def cEnv8 : StoreEnv :=
  { readings := fun did =>
      if did = "a" then
        [⟨toNaiveUTC ⟨2025, 3, 10, 1, 0, 0, 0⟩, none, none, some 0⟩,
         ⟨toNaiveUTC ⟨2025, 3, 10, 11, 0, 0, 0⟩, none, none, some 100⟩]
      else if did = "b" then
        [⟨toNaiveUTC ⟨2025, 3, 10, 2, 0, 0, 0⟩, none, none, some 50⟩,
         ⟨toNaiveUTC ⟨2025, 3, 10, 10, 0, 0, 0⟩, none, none, some 150⟩]
      else [],
    latest1 := fun did =>
      if did = "a" then
        [⟨toNaiveUTC ⟨2025, 3, 10, 11, 0, 0, 0⟩, some 120, some 231, some 100⟩]
      else if did = "b" then
        [⟨toNaiveUTC ⟨2025, 3, 10, 10, 0, 0, 0⟩, some 80, some 225, some 150⟩]
      else [] }

/-! ## Lemmas about the Rate Calculator -/

theorem slabWalk_of_nonpos (l : List (Option ℚ × ℚ)) (r lu t : ℚ)
    (h : r ≤ 0) : slabWalk l r lu t = t := by
  cases l with
  | nil => rfl
  | cons p rest => obtain ⟨upper, rate⟩ := p; simp [slabWalk, h]

theorem slabWalkSpec_of_nonpos (l : List (Option ℚ × ℚ)) (r lu t : ℚ)
    (h : r ≤ 0) : slabWalkSpec l r lu t = t := by
  cases l with
  | nil => rfl
  | cons p _rest => obtain ⟨upper, rate⟩ := p; simp [slabWalkSpec, h]

theorem slabWalk_eq_spec (l : List (Option ℚ × ℚ)) :
    ∀ r lu t, uppersChain lu l → slabWalk l r lu t = slabWalkSpec l r lu t := by
  induction l with
  | nil => intro r lu t _; rfl
  | cons p rest ih =>
    intro r lu t hchain
    obtain ⟨upper, rate⟩ := p
    by_cases h0 : r ≤ 0
    · simp [slabWalk, slabWalkSpec, h0]
    · have h0' : 0 < r := lt_of_not_ge h0
      cases upper with
      | some up =>
        obtain ⟨hlt, hch⟩ := hchain
        have hspan : 0 < min r (up - lu) := lt_min h0' (by linarith)
        simp only [slabWalk, slabWalkSpec, if_neg h0, if_pos hspan]
        exact ih _ _ _ hch
      | none =>
        simp only [slabWalk, slabWalkSpec, if_neg h0, if_pos h0']
        rw [slabWalk_of_nonpos _ _ _ _ (by linarith),
          slabWalkSpec_of_nonpos _ _ _ _ (by linarith)]

theorem le_slabWalk (l : List (Option ℚ × ℚ)) (hr : ∀ p ∈ l, (0:ℚ) ≤ p.2) :
    ∀ r lu t, t ≤ slabWalk l r lu t := by
  induction l with
  | nil => intro r lu t; exact le_refl t
  | cons p rest ih =>
    intro r lu t
    obtain ⟨upper, rate⟩ := p
    have hrate : (0:ℚ) ≤ rate := hr (upper, rate) (List.mem_cons_self _ _)
    have hrest : ∀ p ∈ rest, (0:ℚ) ≤ p.2 :=
      fun p hp => hr p (List.mem_cons_of_mem _ hp)
    by_cases h0 : r ≤ 0
    · rw [slabWalk_of_nonpos _ _ _ _ h0]
    · cases upper with
      | some up =>
        by_cases hspan : 0 < min r (up - lu)
        · simp only [slabWalk, if_neg h0, if_pos hspan]
          refine le_trans ?_ (ih hrest _ _ _)
          have : 0 ≤ min r (up - lu) * rate := mul_nonneg hspan.le hrate
          linarith
        · simp only [slabWalk, if_neg h0, if_neg hspan]
          exact ih hrest _ _ _
      | none =>
        have h0' : 0 < r := lt_of_not_ge h0
        simp only [slabWalk, if_neg h0, if_pos h0']
        rw [slabWalk_of_nonpos _ _ _ _ (by linarith)]
        have : 0 ≤ r * rate := mul_nonneg h0'.le hrate
        linarith

theorem slabWalk_mono (l : List (Option ℚ × ℚ)) (hr : ∀ p ∈ l, (0:ℚ) ≤ p.2) :
    ∀ r₁ r₂ lu t₁ t₂, r₁ ≤ r₂ → t₁ ≤ t₂ →
      slabWalk l r₁ lu t₁ ≤ slabWalk l r₂ lu t₂ := by
  induction l with
  | nil => intro _ _ _ _ _ _ ht; exact ht
  | cons p rest ih =>
    intro r₁ r₂ lu t₁ t₂ hr12 ht
    obtain ⟨upper, rate⟩ := p
    have hrate : (0:ℚ) ≤ rate := hr (upper, rate) (List.mem_cons_self _ _)
    have hrest : ∀ p ∈ rest, (0:ℚ) ≤ p.2 :=
      fun p hp => hr p (List.mem_cons_of_mem _ hp)
    by_cases h1 : r₁ ≤ 0
    · rw [slabWalk_of_nonpos _ _ _ _ h1]
      exact ht.trans (le_slabWalk _ hr r₂ lu t₂)
    · have h1' : 0 < r₁ := lt_of_not_ge h1
      have h2' : 0 < r₂ := lt_of_lt_of_le h1' hr12
      have h2 : ¬ r₂ ≤ 0 := not_le_of_gt h2'
      cases upper with
      | some up =>
        by_cases hspan1 : 0 < min r₁ (up - lu)
        · have hsle : min r₁ (up - lu) ≤ min r₂ (up - lu) :=
            min_le_min hr12 le_rfl
          have hspan2 : 0 < min r₂ (up - lu) := lt_of_lt_of_le hspan1 hsle
          simp only [slabWalk, if_neg h1, if_neg h2, if_pos hspan1,
            if_pos hspan2]
          refine ih hrest _ _ _ _ _ ?_ ?_
          · rcases le_total r₁ (up - lu) with hc | hc
            · rw [min_eq_left hc]
              have : min r₂ (up - lu) ≤ r₂ := min_le_left _ _
              linarith
            · rw [min_eq_right hc, min_eq_right (hc.trans hr12)]
              linarith
          · have : min r₁ (up - lu) * rate ≤ min r₂ (up - lu) * rate :=
              mul_le_mul_of_nonneg_right hsle hrate
            linarith
        · have hup : up - lu ≤ 0 := by
            by_contra hup
            exact hspan1 (lt_min h1' (lt_of_not_ge hup))
          have hspan2 : ¬ 0 < min r₂ (up - lu) := by
            have : min r₂ (up - lu) ≤ up - lu := min_le_right _ _
            intro hcon; linarith
          simp only [slabWalk, if_neg h1, if_neg h2, if_neg hspan1,
            if_neg hspan2]
          exact ih hrest _ _ _ _ _ hr12 ht
      | none =>
        simp only [slabWalk, if_neg h1, if_neg h2, if_pos h1', if_pos h2']
        refine ih hrest _ _ _ _ _ (by linarith) ?_
        have : r₁ * rate ≤ r₂ * rate := mul_le_mul_of_nonneg_right hr12 hrate
        linarith

theorem round2_mono {a b : ℚ} (h : a ≤ b) : round2 a ≤ round2 b := by
  unfold round2
  have h1 : round (a * 100) ≤ round (b * 100) := by
    rw [round_eq, round_eq]
    exact Int.floor_mono (by linarith)
  have h2 : ((round (a * 100) : ℤ) : ℚ) ≤ ((round (b * 100) : ℤ) : ℚ) := by
    exact_mod_cast h1
  linarith

theorem slabs_rates_nonneg : ∀ p ∈ slabs, (0:ℚ) ≤ p.2 := by
  intro p hp
  fin_cases hp <;> norm_num

theorem uppersChain_slabs : uppersChain 0 slabs := by
  simp only [slabs, uppersChain]
  norm_num

theorem slabWalk_slabs_fifty : slabWalk slabs 50 0 0 = 263 := by
  norm_num [slabWalk, slabs]

/-- C3: `bd_domestic_bill` equals the spec's reference tiered definition
for every input; negative input is clamped to 0; at `u ≤ 50` the cost is
the flat rate `u * 4.633` rounded to 2 decimals; above 50 it is the
progressive slab walk from zero, rounded; `bill 50 = round2 (50 * 4.633)`,
while `bill 50.01` is the full slab walk and differs from
`bill 50 + 0.01 * 5.26`. -/
theorem bill_matches_spec_tiers (u : ℚ) :
    bd_domestic_bill u = bd_bill_spec u ∧
    (u < 0 → bd_domestic_bill u = bd_domestic_bill 0) ∧
    (0 ≤ u → u ≤ 50 → bd_domestic_bill u = round2 (u * 4.633)) ∧
    (50 < u → bd_domestic_bill u = round2 (slabWalk slabs u 0 0)) ∧
    bd_domestic_bill 50 = round2 (50 * 4.633) ∧
    bd_domestic_bill 50.01 ≠ bd_domestic_bill 50 + 0.01 * 5.26 := by
  refine ⟨?_, ?_, ?_, ?_, ?_, ?_⟩
  · unfold bd_domestic_bill bd_bill_spec
    by_cases h : max 0 u ≤ 50
    · simp [h]
    · simp only [h, if_false]
      rw [slabWalk_eq_spec slabs _ _ _ uppersChain_slabs]
  · intro h
    have hm : max 0 u = 0 := max_eq_left h.le
    simp [bd_domestic_bill, hm]
  · intro h0 h50
    have hm : max 0 u = u := max_eq_right h0
    simp [bd_domestic_bill, hm, h50]
  · intro h50
    have hm : max 0 u = u := max_eq_right (by linarith)
    have : ¬ u ≤ 50 := not_le_of_gt h50
    simp [bd_domestic_bill, hm, this]
  · norm_num [bd_domestic_bill]
  · norm_num [bd_domestic_bill, round2, round_eq, slabWalk, slabs]

/-- Witness for C3 at concrete inputs. -/
theorem bill_matches_spec_tiers_witness :
    bd_domestic_bill (-5) = bd_domestic_bill 0 ∧
    bd_domestic_bill 3 = round2 (3 * 4.633) ∧
    bd_domestic_bill 60 = round2 (slabWalk slabs 60 0 0) :=
  ⟨(bill_matches_spec_tiers (-5)).2.1 (by norm_num),
   (bill_matches_spec_tiers 3).2.2.1 (by norm_num) (by norm_num),
   (bill_matches_spec_tiers 60).2.2.2.1 (by norm_num)⟩

/-- C9: `bd_domestic_bill` is monotonically non-decreasing, including
across the discontinuity between the flat rate at 50 units and the slab
walk just above 50. -/
theorem bill_monotone (x y : ℚ) (h : x ≤ y) :
    bd_domestic_bill x ≤ bd_domestic_bill y := by
  unfold bd_domestic_bill
  have hmax : max 0 x ≤ max 0 y := max_le_max le_rfl h
  have hx0 : (0:ℚ) ≤ max 0 x := le_max_left _ _
  by_cases hy : max 0 y ≤ 50
  · have hx : max 0 x ≤ 50 := hmax.trans hy
    simp only [hx, hy, if_true]
    exact round2_mono (by nlinarith)
  · by_cases hx : max 0 x ≤ 50
    · simp only [hx, hy, if_true, if_false]
      refine round2_mono ?_
      have h1 : max 0 x * 4.633 ≤ 50 * 4.633 := by nlinarith
      have h2 : slabWalk slabs 50 0 0 ≤ slabWalk slabs (max 0 y) 0 0 :=
        slabWalk_mono slabs slabs_rates_nonneg 50 (max 0 y) 0 0 0
          (le_of_not_le hy) le_rfl
      rw [slabWalk_slabs_fifty] at h2
      nlinarith
    · simp only [hx, hy, if_false]
      exact round2_mono
        (slabWalk_mono slabs slabs_rates_nonneg _ _ 0 0 0 hmax le_rfl)

/-- Witness for C9 at a concrete pair straddling the discontinuity. -/
theorem bill_monotone_witness : bd_domestic_bill 49 ≤ bd_domestic_bill 51 :=
  bill_monotone 49 51 (by norm_num)

/-! ## Lemmas about column max / min -/

theorem foldl_max_init_le (xs : List ℚ) : ∀ a, a ≤ xs.foldl max a := by
  induction xs with
  | nil => intro a; exact le_refl a
  | cons x t ih => intro a; exact (le_max_left a x).trans (ih (max a x))

theorem foldl_max_mem_le (xs : List ℚ) : ∀ a, ∀ x ∈ xs, x ≤ xs.foldl max a := by
  induction xs with
  | nil => intro a x hx; simp at hx
  | cons y t ih =>
    intro a x hx
    rcases List.mem_cons.mp hx with rfl | hx
    · exact (le_max_right a x).trans (foldl_max_init_le t _)
    · exact ih _ x hx

theorem foldl_max_cases (xs : List ℚ) :
    ∀ a, xs.foldl max a = a ∨ xs.foldl max a ∈ xs := by
  induction xs with
  | nil => intro a; left; rfl
  | cons y t ih =>
    intro a
    have hstep : (y :: t).foldl max a = t.foldl max (max a y) := rfl
    rw [hstep]
    rcases ih (max a y) with h | h
    · rw [h]
      rcases max_choice a y with hm | hm
      · left; exact hm
      · right; rw [hm]; exact List.mem_cons_self y t
    · right; exact List.mem_cons_of_mem y h

theorem colMax_mem (l : List ℚ) (h : l ≠ []) : colMax l ∈ l := by
  cases l with
  | nil => exact absurd rfl h
  | cons x t =>
    show t.foldl max x ∈ x :: t
    rcases foldl_max_cases t x with hc | hc
    · rw [hc]; exact List.mem_cons_self x t
    · exact List.mem_cons_of_mem x hc

theorem le_colMax (l : List ℚ) : ∀ x ∈ l, x ≤ colMax l := by
  intro x hx
  cases l with
  | nil => simp at hx
  | cons y t =>
    show x ≤ t.foldl max y
    rcases List.mem_cons.mp hx with rfl | hx
    · exact foldl_max_init_le t x
    · exact foldl_max_mem_le t y x hx

theorem foldl_min_le_init (xs : List ℚ) : ∀ a, xs.foldl min a ≤ a := by
  induction xs with
  | nil => intro a; exact le_refl a
  | cons x t ih => intro a; exact (ih (min a x)).trans (min_le_left a x)

theorem foldl_min_mem_ge (xs : List ℚ) : ∀ a, ∀ x ∈ xs, xs.foldl min a ≤ x := by
  induction xs with
  | nil => intro a x hx; simp at hx
  | cons y t ih =>
    intro a x hx
    rcases List.mem_cons.mp hx with rfl | hx
    · exact (foldl_min_le_init t _).trans (min_le_right a x)
    · exact ih _ x hx

theorem foldl_min_cases (xs : List ℚ) :
    ∀ a, xs.foldl min a = a ∨ xs.foldl min a ∈ xs := by
  induction xs with
  | nil => intro a; left; rfl
  | cons y t ih =>
    intro a
    have hstep : (y :: t).foldl min a = t.foldl min (min a y) := rfl
    rw [hstep]
    rcases ih (min a y) with h | h
    · rw [h]
      rcases min_choice a y with hm | hm
      · left; exact hm
      · right; rw [hm]; exact List.mem_cons_self y t
    · right; exact List.mem_cons_of_mem y h

theorem colMin_mem (l : List ℚ) (h : l ≠ []) : colMin l ∈ l := by
  cases l with
  | nil => exact absurd rfl h
  | cons x t =>
    show t.foldl min x ∈ x :: t
    rcases foldl_min_cases t x with hc | hc
    · rw [hc]; exact List.mem_cons_self x t
    · exact List.mem_cons_of_mem x hc

theorem colMin_le (l : List ℚ) : ∀ x ∈ l, colMin l ≤ x := by
  intro x hx
  cases l with
  | nil => simp at hx
  | cons y t =>
    show t.foldl min y ≤ x
    rcases List.mem_cons.mp hx with rfl | hx
    · exact foldl_min_le_init t x
    · exact foldl_min_mem_ge t y x hx

theorem colMax_perm {l l' : List ℚ} (hp : l.Perm l') (hne : l ≠ []) :
    colMax l = colMax l' := by
  have hne' : l' ≠ [] := by
    intro h; subst h; exact hne hp.eq_nil
  exact le_antisymm
    (le_colMax l' _ (hp.mem_iff.mp (colMax_mem l hne)))
    (le_colMax l _ (hp.mem_iff.mpr (colMax_mem l' hne')))

theorem colMin_perm {l l' : List ℚ} (hp : l.Perm l') (hne : l ≠ []) :
    colMin l = colMin l' := by
  have hne' : l' ≠ [] := by
    intro h; subst h; exact hne hp.eq_nil
  exact le_antisymm
    (colMin_le l _ (hp.mem_iff.mpr (colMin_mem l' hne')))
    (colMin_le l' _ (hp.mem_iff.mp (colMin_mem l hne)))

theorem units_between_nonempty (df : List RRow) (hdf : df ≠ [])
    (hes : df.filterMap RRow.energy_kWh ≠ []) :
    units_between df =
      colMax (df.filterMap RRow.energy_kWh) -
        colMin (df.filterMap RRow.energy_kWh) := by
  unfold units_between
  cases df with
  | nil => exact absurd rfl hdf
  | cons r t =>
    have h1 : (r :: t).isEmpty = false := rfl
    have h2 : ((r :: t).filterMap RRow.energy_kWh).isEmpty = false := by
      rcases hlist : (r :: t).filterMap RRow.energy_kWh with _ | _
      · exact absurd hlist hes
      · rfl
    simp [h1, h2]

/-- C7: `units_between` equals max − min of the energy column over the
window, is invariant under reordering of the readings, and is 0 when the
window has no readings or the `energy_kWh` field is absent. -/
theorem units_between_spec (df df' : List RRow) (hp : df.Perm df') :
    units_between ([] : List RRow) = 0 ∧
    (df.filterMap RRow.energy_kWh = [] → units_between df = 0) ∧
    (df ≠ [] → df.filterMap RRow.energy_kWh ≠ [] →
      units_between df =
        colMax (df.filterMap RRow.energy_kWh) -
          colMin (df.filterMap RRow.energy_kWh) ∧
      IsGreatest {x | x ∈ df.filterMap RRow.energy_kWh}
        (colMax (df.filterMap RRow.energy_kWh)) ∧
      IsLeast {x | x ∈ df.filterMap RRow.energy_kWh}
        (colMin (df.filterMap RRow.energy_kWh))) ∧
    units_between df = units_between df' := by
  refine ⟨rfl, ?_, ?_, ?_⟩
  · intro h
    unfold units_between
    simp [h]
  · intro hdf hes
    refine ⟨units_between_nonempty df hdf hes, ?_, ?_⟩
    · exact ⟨colMax_mem _ hes, fun b hb => le_colMax _ b hb⟩
    · exact ⟨colMin_mem _ hes, fun b hb => colMin_le _ b hb⟩
  · have hfm : (df.filterMap RRow.energy_kWh).Perm
        (df'.filterMap RRow.energy_kWh) := hp.filterMap _
    cases df with
    | nil =>
      have h' : df' = [] := hp.symm.eq_nil
      subst h'; rfl
    | cons r t =>
      cases df' with
      | nil => exact absurd hp.eq_nil (by simp)
      | cons r' t' =>
        by_cases hes : (r :: t).filterMap RRow.energy_kWh = []
        · have hes' : (r' :: t').filterMap RRow.energy_kWh = [] :=
            (hes ▸ hfm).symm.eq_nil
          unfold units_between
          simp [hes, hes']
        · have hes' : (r' :: t').filterMap RRow.energy_kWh ≠ [] := by
            intro h
            exact hes (h ▸ hfm).eq_nil
          rw [units_between_nonempty _ (by simp) hes,
            units_between_nonempty _ (by simp) hes',
            colMax_perm hfm hes, colMin_perm hfm hes]

/-- C4 counterexample: the claim that a reading timestamped exactly at the
month-window end instant is excluded from monthly consumption is false —
`range_docs` filters with `$gte start, $lte end`, so the end instant is
included: with a mid-December reading at 10 kWh and a reading of 15 kWh
stamped exactly at the window end (2025-01-01 local midnight as naive
UTC), the monthly consumption is 5, not 0. -/
theorem month_window_end_included :
    range_member (month_window_local cNow4).1 (month_window_local cNow4).2
        (month_window_local cNow4).2 = true ∧
    (month_window_local cNow4).2 = toNaiveUTC ⟨2025, 1, 1, 0, 0, 0, 0⟩ ∧
    (daily_monthly_for cEnv4 "d" cNow4).2.2.1 = 5 := by
  refine ⟨by decide, by decide, ?_⟩
  have hr : range_docs cEnv4 "d" (month_window_local cNow4).1
      (month_window_local cNow4).2 =
      [⟨toNaiveUTC ⟨2024, 12, 10, 0, 0, 0, 0⟩, none, none, some 10⟩,
       ⟨(month_window_local cNow4).2, none, none, some 15⟩] := by decide
  simp only [daily_monthly_for]
  rw [hr]
  norm_num [units_between, colMax, colMin, List.filterMap, max_def, min_def,
    round3, round_eq]

/-- C4 (amended): the month window end is local midnight of day 1 of the
next local month (December rolling into January of the next year)
converted to naive UTC, and the day window end is local 23:59:59.999999
converted to naive UTC; but both windows are inclusive-closed — the range
query keeps a reading stamped exactly at either end instant, so a reading
at the month end instant is counted in monthly consumption. -/
theorem month_day_window_bounds (now : CivilDT)
    (h : (month_window_local now).1 ≤ (month_window_local now).2) :
    (month_window_local now).2 =
      toNaiveUTC (if now.month = 12 then ⟨now.year + 1, 1, 1, 0, 0, 0, 0⟩
        else ⟨now.year, now.month + 1, 1, 0, 0, 0, 0⟩) ∧
    (day_window_local now).2 =
      toNaiveUTC ⟨now.year, now.month, now.day, 23, 59, 59, 999999⟩ ∧
    range_member (month_window_local now).1 (month_window_local now).2
      (month_window_local now).2 = true ∧
    range_member (day_window_local now).1 (day_window_local now).2
      (day_window_local now).2 = true ∧
    (∀ s e ts : ℤ, range_member s e ts = true ↔ s ≤ ts ∧ ts ≤ e) := by
  refine ⟨?_, rfl, ?_, ?_, ?_⟩
  · by_cases h12 : now.month = 12 <;> simp [month_window_local, h12]
  · simp [range_member, h]
  · have hd : (day_window_local now).1 ≤ (day_window_local now).2 := by
      simp only [day_window_local, toNaiveUTC, toMicros]
      linarith
    simp [range_member, hd]
  · intro s e ts
    simp [range_member]

/-- Witness for C4's amended statement at the concrete December instant. -/
theorem month_day_window_bounds_witness :
    (month_window_local cNow4).2 = toNaiveUTC ⟨2024 + 1, 1, 1, 0, 0, 0, 0⟩ ∧
    range_member (day_window_local cNow4).1 (day_window_local cNow4).2
      (day_window_local cNow4).2 = true := by
  have h := month_day_window_bounds cNow4 (by decide)
  refine ⟨?_, h.2.2.2.1⟩
  have h1 := h.1
  norm_num [cNow4] at h1 ⊢
  exact h1

/-! ## Lemmas about the Due-Check & Executor -/

theorem schedule_step_cases (ctl : Ctl) (t : CivilDT) (doc : SchedDoc) :
    schedule_step ctl t doc = (none, doc) ∨
    schedule_step ctl t doc =
      (some (run_action ctl t doc), { doc with last_run_at := some t }) := by
  unfold schedule_step
  dsimp only
  repeat' split
  all_goals first
    | (left; rfl)
    | (right; rfl)

theorem schedule_step_once_no_refire (ctl : Ctl) (t : CivilDT) (doc : SchedDoc)
    (d : SDate) (lr : CivilDT)
    (hkind : doc.kind = "once") (hdate : doc.date = some d)
    (hlast : doc.last_run_at = some lr)
    (hge : toMicros (occDT d (doc.time_hm.getD (0, 0))) ≤ toMicros lr) :
    schedule_step ctl t doc = (none, doc) := by
  have hno : ¬ (toMicros lr < toMicros (occDT d (doc.time_hm.getD (0, 0)))) :=
    not_lt.mpr hge
  by_cases h1 : doc.is_active = false
  · simp [schedule_step, h1]
  · simp [schedule_step, h1, hkind, hdate, hlast, hno]
    exact fun _ => hge

theorem schedule_step_once_fires (ctl : Ctl) (t : CivilDT) (doc : SchedDoc)
    (d : SDate)
    (hact : doc.is_active = true) (hkind : doc.kind = "once")
    (hdate : doc.date = some d) (hlast : doc.last_run_at = none)
    (hdue : toMicros (occDT d (doc.time_hm.getD (0, 0))) ≤ toMicros t) :
    schedule_step ctl t doc =
      (some (run_action ctl t doc), { doc with last_run_at := some t }) := by
  have h1 : ¬ doc.is_active = false := by rw [hact]; simp
  simp [schedule_step, h1, hkind, hdate, hlast]
  exact hdue

theorem schedule_step_weekly_same_day (ctl : Ctl) (t : CivilDT)
    (doc : SchedDoc) (lr : CivilDT)
    (hkind : doc.kind = "weekly") (hlast : doc.last_run_at = some lr)
    (hsame : sameLocalDate lr t) :
    schedule_step ctl t doc = (none, doc) := by
  by_cases h1 : doc.is_active = false
  · simp [schedule_step, h1]
  · simp [schedule_step, h1, hkind, hlast, hsame]

theorem scan_foldl_const (ctl : Ctl) (doc : SchedDoc)
    (hstep : ∀ t, schedule_step ctl t doc = (none, doc)) :
    ∀ (times : List CivilDT) (n : ℕ),
      times.foldl (fun acc t =>
        let r := schedule_step ctl t acc.2
        (acc.1 + (if r.1.isSome then 1 else 0), r.2)) (n, doc) = (n, doc) := by
  intro times
  induction times with
  | nil => intro n; rfl
  | cons t ts ih =>
    intro n
    simp only [List.foldl, hstep t, Option.isSome_none, Bool.false_eq_true,
      if_false, Nat.add_zero]
    exact ih n

/-- C1: an active ONCE schedule whose occurrence is in the past and whose
`last_run_at` is null fires on the first scan and on no later scan (with
the `last_run_at` write-back succeeding and visible): across the first
scan at `t₁ ≥ occurrence` followed by any further scans, exactly one
command is issued and the final record carries `last_run_at = t₁ ≥`
occurrence. -/
theorem once_past_fires_exactly_once (ctl : Ctl) (doc : SchedDoc) (d : SDate)
    (t₁ : CivilDT) (rest : List CivilDT)
    (hact : doc.is_active = true) (hkind : doc.kind = "once")
    (hdate : doc.date = some d) (hlast : doc.last_run_at = none)
    (hdue : toMicros (occDT d (doc.time_hm.getD (0, 0))) ≤ toMicros t₁) :
    (run_scans ctl doc (t₁ :: rest)).1 = 1 ∧
    (run_scans ctl doc (t₁ :: rest)).2.last_run_at = some t₁ := by
  have hfire := schedule_step_once_fires ctl t₁ doc d hact hkind hdate hlast hdue
  have hstep : ∀ t, schedule_step ctl t { doc with last_run_at := some t₁ } =
      (none, { doc with last_run_at := some t₁ }) := by
    intro t
    exact schedule_step_once_no_refire ctl t _ d t₁ hkind hdate rfl hdue
  have hrun : run_scans ctl doc (t₁ :: rest) =
      (1, { doc with last_run_at := some t₁ }) := by
    unfold run_scans
    rw [List.foldl_cons]
    simp only [hfire, Option.isSome_some, if_true, Nat.zero_add]
    exact scan_foldl_const ctl _ hstep rest 1
  rw [hrun]
  exact ⟨rfl, rfl⟩

/-- Witness for C1: `cDoc1` scanned three times after its occurrence. -/
theorem once_past_fires_exactly_once_witness :
    (run_scans cCtlOk cDoc1
        [⟨2025, 1, 2, 12, 0, 0, 0⟩, ⟨2025, 1, 2, 12, 5, 0, 0⟩,
         ⟨2025, 1, 3, 9, 0, 0, 0⟩]).1 = 1 ∧
    (run_scans cCtlOk cDoc1
        [⟨2025, 1, 2, 12, 0, 0, 0⟩, ⟨2025, 1, 2, 12, 5, 0, 0⟩,
         ⟨2025, 1, 3, 9, 0, 0, 0⟩]).2.last_run_at =
      some ⟨2025, 1, 2, 12, 0, 0, 0⟩ :=
  once_past_fires_exactly_once cCtlOk cDoc1 ⟨2025, 1, 1⟩
    ⟨2025, 1, 2, 12, 0, 0, 0⟩
    [⟨2025, 1, 2, 12, 5, 0, 0⟩, ⟨2025, 1, 3, 9, 0, 0, 0⟩]
    rfl rfl rfl rfl (by decide)

theorem weekly_step_isSome_iff (ctl : Ctl) (doc : SchedDoc)
    (hact : doc.is_active = true) (hkind : doc.kind = "weekly")
    (now : CivilDT) :
    (schedule_step ctl now doc).1.isSome = true ↔
      (weekdayOf now ∈ doc.weekdays.getD [] ∧
       toMicros (todayAt now (doc.time_hm.getD (0, 0))) ≤ toMicros now ∧
       ∀ lr, doc.last_run_at = some lr → ¬ sameLocalDate lr now) := by
  have h1 : ¬ doc.is_active = false := by rw [hact]; simp
  rcases hl : doc.last_run_at with _ | lr
  · by_cases hw : weekdayOf now ∈ doc.weekdays.getD []
    · by_cases ht : toMicros (todayAt now (doc.time_hm.getD 0)) ≤ toMicros now
      · simp [schedule_step, h1, hkind, hl, hw, ht]
      · simp [schedule_step, h1, hkind, hl, hw, ht]
    · simp [schedule_step, h1, hkind, hl, hw]
  · by_cases hs : sameLocalDate lr now
    · simp [schedule_step, h1, hkind, hl, hs]
    · by_cases hw : weekdayOf now ∈ doc.weekdays.getD []
      · by_cases ht : toMicros (todayAt now (doc.time_hm.getD 0)) ≤ toMicros now
        · simp [schedule_step, h1, hkind, hl, hw, ht, hs]
        · simp [schedule_step, h1, hkind, hl, hw, ht]
      · simp [schedule_step, h1, hkind, hl, hw]

theorem scans_weekly_foldl_stable (ctl : Ctl) (Y M D : ℤ) :
    ∀ (scans : List ((ℤ × ℤ) × CivilDT)) (n : ℕ) (doc : SchedDoc)
      (lr : CivilDT),
      doc.kind = "weekly" → doc.last_run_at = some lr →
      lr.year = Y → lr.month = M → lr.day = D →
      (∀ s ∈ scans, s.2.year = Y ∧ s.2.month = M ∧ s.2.day = D) →
      (scans.foldl (fun acc s =>
        let r := schedule_step ctl s.2 { acc.2 with time_hm := some s.1 }
        (acc.1 + (if r.1.isSome then 1 else 0), r.2)) (n, doc)).1 = n := by
  intro scans
  induction scans with
  | nil => intro n doc lr _ _ _ _ _ _; rfl
  | cons s ss ih =>
    intro n doc lr hkind hlast hY hM hD hdates
    have hd := hdates s (List.mem_cons_self _ _)
    have hsame : sameLocalDate lr s.2 :=
      ⟨by rw [hY, hd.1], by rw [hM, hd.2.1], by rw [hD, hd.2.2]⟩
    have hstep := schedule_step_weekly_same_day ctl s.2
      { doc with time_hm := some s.1 } lr hkind hlast hsame
    simp only [List.foldl, hstep, Option.isSome_none, Bool.false_eq_true,
      if_false, Nat.add_zero]
    exact ih n { doc with time_hm := some s.1 } lr hkind hlast hY hM hD
      (fun s' hs' => hdates s' (List.mem_cons_of_mem _ hs'))

theorem weekly_at_most_once_aux (ctl : Ctl) (Y M D : ℤ) :
    ∀ (scans : List ((ℤ × ℤ) × CivilDT)) (doc : SchedDoc),
      doc.kind = "weekly" →
      (∀ s ∈ scans, s.2.year = Y ∧ s.2.month = M ∧ s.2.day = D) →
      (run_scans_weekly ctl doc scans).1 ≤ 1 := by
  intro scans
  induction scans with
  | nil => intro doc _ _; exact Nat.zero_le 1
  | cons s ss ih =>
    intro doc hkind hdates
    have hd := hdates s (List.mem_cons_self _ _)
    unfold run_scans_weekly
    rw [List.foldl_cons]
    rcases schedule_step_cases ctl s.2 { doc with time_hm := some s.1 }
      with hc | hc
    · simp only [hc, Option.isSome_none, Bool.false_eq_true, if_false,
        Nat.add_zero]
      exact ih { doc with time_hm := some s.1 } hkind
        (fun s' h => hdates s' (List.mem_cons_of_mem _ h))
    · simp only [hc, Option.isSome_some, if_true, Nat.zero_add]
      exact (scans_weekly_foldl_stable ctl Y M D ss 1
        { doc with time_hm := some s.1, last_run_at := some s.2 } s.2 hkind rfl
        hd.1 hd.2.1 hd.2.2
        (fun s' h => hdates s' (List.mem_cons_of_mem _ h))).le

/-- C2: an active WEEKLY schedule fires on a scan at `now` iff `now`'s
weekday is in its weekday set, `now` has reached today's occurrence time,
and `last_run_at` is absent or carries a different local calendar date;
and across any sequence of scans within one local calendar day — even
with the schedule's time-of-day rewritten between scans — it fires at
most once. -/
theorem weekly_due_iff_once_per_day (ctl : Ctl) (doc : SchedDoc)
    (hact : doc.is_active = true) (hkind : doc.kind = "weekly") :
    (∀ now : CivilDT,
      (schedule_step ctl now doc).1.isSome = true ↔
        (weekdayOf now ∈ doc.weekdays.getD [] ∧
         toMicros (todayAt now (doc.time_hm.getD (0, 0))) ≤ toMicros now ∧
         ∀ lr, doc.last_run_at = some lr → ¬ sameLocalDate lr now)) ∧
    (∀ (Y M D : ℤ) (scans : List ((ℤ × ℤ) × CivilDT)),
      (∀ s ∈ scans, s.2.year = Y ∧ s.2.month = M ∧ s.2.day = D) →
      (run_scans_weekly ctl doc scans).1 ≤ 1) :=
  ⟨fun now => weekly_step_isSome_iff ctl doc hact hkind now,
   fun Y M D scans hdates => weekly_at_most_once_aux ctl Y M D scans doc
     hkind hdates⟩

/-- Witness for C2: `cDoc2` (Mondays/Thursdays at 09:00) is due on
Thursday 2025-10-09 at 09:30, and three same-day scans — the third after
an operator moved the time to 14:00 — fire at most once. -/
theorem weekly_due_iff_once_per_day_witness :
    (schedule_step cCtlOk ⟨2025, 10, 9, 9, 30, 0, 0⟩ cDoc2).1.isSome = true ∧
    (run_scans_weekly cCtlOk cDoc2
      [((9, 0), ⟨2025, 10, 9, 9, 30, 0, 0⟩),
       ((9, 0), ⟨2025, 10, 9, 10, 0, 0, 0⟩),
       ((14, 0), ⟨2025, 10, 9, 15, 0, 0, 0⟩)]).1 ≤ 1 := by
  have h := weekly_due_iff_once_per_day cCtlOk cDoc2 rfl rfl
  refine ⟨(h.1 ⟨2025, 10, 9, 9, 30, 0, 0⟩).mpr
    ⟨by decide, by decide, fun lr hl => nomatch hl⟩, ?_⟩
  exact h.2 2025 10 9 _ (by decide)

theorem schedule_step_once_fired_inv (ctl : Ctl) (now : CivilDT)
    (doc : SchedDoc) (log : LogEntry) (doc' : SchedDoc)
    (hkind : doc.kind = "once")
    (hstep : schedule_step ctl now doc = (some log, doc')) :
    ∃ d, doc.date = some d ∧
      toMicros (occDT d (doc.time_hm.getD (0, 0))) ≤ toMicros now := by
  unfold schedule_step at hstep
  by_cases h1 : doc.is_active = false
  · rw [if_pos h1] at hstep
    simp at hstep
  · rw [if_neg h1] at hstep
    dsimp only at hstep
    rw [if_pos hkind] at hstep
    split at hstep
    · simp at hstep
    · rename_i d hd
      split at hstep
      · rename_i hcond
        exact ⟨d, hd, hcond.1⟩
      · simp at hstep

/-- C6: when the device-control call raises for a due schedule, the
failure is recorded as an `{error}` result in the audit row rather than
propagating, the scan still processes the remaining schedules, and
`last_run_at` is still advanced to `now` — so the failed actuation is not
retried on the next refresh (never again for a ONCE schedule, not within
the same local day for a WEEKLY one). -/
theorem failed_actuation_logged_not_retried (ctl : Ctl) (now : CivilDT)
    (doc : SchedDoc) (e : String) (log : LogEntry) (doc' : SchedDoc)
    (herr : ctl doc.device_id (doc.action = "on") = .error e)
    (hstep : schedule_step ctl now doc = (some log, doc')) :
    log.result = .error e ∧
    doc'.last_run_at = some now ∧
    (∀ rest, run_due_schedules ctl now (doc :: rest) =
      (log :: (run_due_schedules ctl now rest).1,
       doc' :: (run_due_schedules ctl now rest).2)) ∧
    (doc.kind = "once" → ∀ t, (schedule_step ctl t doc').1 = none) ∧
    (doc.kind = "weekly" → ∀ t, sameLocalDate now t →
      (schedule_step ctl t doc').1 = none) := by
  rcases schedule_step_cases ctl now doc with hc | hc
  · rw [hc] at hstep
    simp at hstep
  · have hlog : log = run_action ctl now doc := by
      have h2 := hstep.symm.trans hc
      exact (Option.some.injEq _ _ ▸ congrArg Prod.fst h2 : _)
    have hdoc' : doc' = { doc with last_run_at := some now } := by
      have h2 := hstep.symm.trans hc
      exact congrArg Prod.snd h2
    subst hlog
    subst hdoc'
    refine ⟨?_, rfl, ?_, ?_, ?_⟩
    · simp [run_action, herr]
    · intro rest
      simp [run_due_schedules, hstep]
    · intro hkind t
      obtain ⟨d, hd, hocc⟩ :=
        schedule_step_once_fired_inv ctl now doc _ _ hkind hstep
      have hnone := schedule_step_once_no_refire ctl t
        { doc with last_run_at := some now } d now hkind hd rfl hocc
      rw [hnone]
    · intro hkind t hsame
      have hnone := schedule_step_weekly_same_day ctl t
        { doc with last_run_at := some now } now hkind rfl hsame
      rw [hnone]

/-- Witness for C6: a control capability that always raises, applied to
the due ONCE schedule `cDoc6` at `cNow6`. -/
theorem failed_actuation_logged_not_retried_witness :
    (run_action cCtlErr cNow6 cDoc6).result = Except.error "boom" ∧
    (schedule_step cCtlErr ⟨2025, 2, 1, 9, 0, 0, 0⟩
      { cDoc6 with last_run_at := some cNow6 }).1 = none := by
  have h := failed_actuation_logged_not_retried cCtlErr cNow6 cDoc6 "boom"
    (run_action cCtlErr cNow6 cDoc6) { cDoc6 with last_run_at := some cNow6 }
    rfl (by decide)
  exact ⟨h.1, h.2.2.2.1 rfl ⟨2025, 2, 1, 9, 0, 0, 0⟩⟩

/-- C5 counterexample: a WEEKLY schedule with an empty weekday set is NOT
rejected by `create_schedule` — the call succeeds and persists a record
with `weekdays = []`, violating the claimed non-empty-weekdays invariant. -/
theorem create_weekly_empty_weekdays_persisted :
    create_schedule true true "d5" "dev" "b" "f" "r" "on" "weekly" none
        (9, 30) (some []) cNow5 7 = Except.ok (some cDoc5weekly) ∧
    cDoc5weekly.kind = "weekly" ∧ cDoc5weekly.weekdays = some [] :=
  ⟨rfl, rfl, rfl⟩

/-- C5 (amended): every record persisted by `create_schedule` has a valid
action and kind; `kind = once` implies the date is set and the weekdays
key absent, and `kind = weekly` implies the date is absent and the
weekdays key present — but possibly empty, since an empty or omitted
weekday set is accepted; invalid action or kind and a ONCE request
without a date raise at creation time and are never persisted. -/
theorem create_schedule_kind_invariant (sOk iOk : Bool)
    (di dn b f r action kind : String) (dv : Option SDate) (tv : ℤ × ℤ)
    (wd : Option (List ℤ)) (now : CivilDT) (nid : ℕ) (doc : SchedDoc)
    (h : create_schedule sOk iOk di dn b f r action kind dv tv wd now nid =
      .ok (some doc)) :
    (doc.action = "on" ∨ doc.action = "off") ∧
    (doc.kind = "once" ∨ doc.kind = "weekly") ∧
    (doc.kind = "once" → (∃ d, doc.date = some d) ∧ doc.weekdays = none) ∧
    (doc.kind = "weekly" →
      doc.date = none ∧ doc.weekdays = some (wd.getD [])) ∧
    doc.is_active = true ∧ doc.last_run_at = none := by
  unfold create_schedule at h
  by_cases h1 : sOk = false
  · rw [if_pos h1] at h; simp at h
  · rw [if_neg h1] at h
    by_cases h2 : ¬(action = "on" ∨ action = "off")
    · rw [if_pos h2] at h; simp at h
    · rw [if_neg h2] at h
      by_cases h3 : ¬(kind = "once" ∨ kind = "weekly")
      · rw [if_pos h3] at h; simp at h
      · rw [if_neg h3] at h
        by_cases h4 : kind = "once" ∧ dv = none
        · rw [if_pos h4] at h; simp at h
        · rw [if_neg h4] at h
          dsimp only at h
          by_cases h5 : iOk = true
          · rw [if_pos h5] at h
            simp only [Except.ok.injEq, Option.some.injEq] at h
            subst h
            refine ⟨not_not.mp h2, not_not.mp h3, ?_, ?_, rfl, rfl⟩
            · intro hko
              simp only at hko
              have hdv : dv ≠ none := fun hn => h4 ⟨hko, hn⟩
              obtain ⟨d, hd⟩ := Option.ne_none_iff_exists'.mp hdv
              simp [hko, hd]
            · intro hkw
              simp only at hkw
              have hno : kind ≠ "once" := by
                rw [hkw]; decide
              simp [hkw, hno]
          · rw [if_neg h5] at h; simp at h

/-- Witness for C5's amended statement: a well-formed ONCE request
persists `cDoc5once`, whose record satisfies the invariant. -/
theorem create_schedule_kind_invariant_witness :
    (∃ d, cDoc5once.date = some d) ∧ cDoc5once.weekdays = none :=
  (create_schedule_kind_invariant true true "d5" "dev" "b" "f" "r" "on"
    "once" (some ⟨2025, 1, 1⟩) (8, 0) none cNow5 3 cDoc5once rfl).2.2.1 rfl

/-- C10: with the schedule store unreachable, `create_schedule` returns
the null failure indicator before any domain validation — even for an
invalid action or kind or a ONCE request without a date — whereas the
same invalid arguments raise when the store is reachable. -/
theorem create_schedule_store_unreachable (iOk : Bool)
    (di dn b f r action kind : String) (dv : Option SDate) (tv : ℤ × ℤ)
    (wd : Option (List ℤ)) (now : CivilDT) (nid : ℕ) :
    create_schedule false iOk di dn b f r action kind dv tv wd now nid =
      .ok none ∧
    create_schedule true iOk di dn b f r "toggle" "weekly" dv tv wd now nid =
      .error "action must be on or off" ∧
    create_schedule true iOk di dn b f r "on" "daily" dv tv wd now nid =
      .error "kind must be once or weekly" ∧
    create_schedule true iOk di dn b f r "on" "once" none tv wd now nid =
      .error "date_value is required for one-time schedule" :=
  ⟨rfl, rfl, rfl, rfl⟩

/-! ## Lemmas about the Usage Aggregator -/

theorem foldl_add_eq_sum (g : String → ℚ) :
    ∀ (l : List String) (a : ℚ),
      l.foldl (fun acc x => acc + g x) a = a + (l.map g).sum := by
  intro l
  induction l with
  | nil => intro a; simp
  | cons x t ih =>
    intro a
    simp only [List.foldl_cons, List.map_cons, List.sum_cons, ih]
    ring

theorem foldl_collect_eq_filterMap (f : String → Option ℚ) :
    ∀ (l : List String) (a : List ℚ),
      l.foldl (fun acc did =>
        match f did with
        | some v => acc ++ [v]
        | none => acc) a = a ++ l.filterMap f := by
  intro l
  induction l with
  | nil => intro a; simp
  | cons x t ih =>
    intro a
    cases hf : f x <;>
      simp [hf, ih, List.filterMap_cons]

theorem aggregate_power_eq (env : StoreEnv) (now : CivilDT)
    (devices : List String) :
    (aggregate_totals_all_devices env now devices).1 =
      round2 ((devices.map fun did =>
        (latest_power_voltage env did).1).sum) := by
  simp only [aggregate_totals_all_devices]
  rw [foldl_add_eq_sum (fun did => (latest_power_voltage env did).1)]
  rw [zero_add]

theorem aggregate_voltage_eq (env : StoreEnv) (now : CivilDT)
    (devices : List String) :
    (aggregate_totals_all_devices env now devices).2.1 =
      (if (devices.filterMap fun did =>
            (latest_power_voltage env did).2).isEmpty then 0
       else round2 (colMax (devices.filterMap fun did =>
            (latest_power_voltage env did).2))) := by
  simp only [aggregate_totals_all_devices]
  rw [foldl_collect_eq_filterMap (fun did => (latest_power_voltage env did).2)]
  rw [List.nil_append]

theorem aggregate_today_bill_eq (env : StoreEnv) (now : CivilDT)
    (devices : List String) :
    (aggregate_totals_all_devices env now devices).2.2.2.1 =
      bd_domestic_bill (round3 ((devices.map fun did =>
        units_between (range_docs env did (day_window_local now).1
          (day_window_local now).2)).sum)) := by
  simp only [aggregate_totals_all_devices]
  rw [foldl_add_eq_sum (fun did =>
    units_between (range_docs env did (day_window_local now).1
      (day_window_local now).2))]
  rw [zero_add]

theorem aggregate_month_bill_eq (env : StoreEnv) (now : CivilDT)
    (devices : List String) :
    (aggregate_totals_all_devices env now devices).2.2.2.2.2 =
      bd_domestic_bill (round3 ((devices.map fun did =>
        units_between (range_docs env did (month_window_local now).1
          (month_window_local now).2)).sum)) := by
  simp only [aggregate_totals_all_devices]
  rw [foldl_add_eq_sum (fun did =>
    units_between (range_docs env did (month_window_local now).1
      (month_window_local now).2))]
  rw [zero_add]

/-- C8: `aggregate_totals_all_devices` reports instantaneous power as the
(rounded) sum over devices of the single most-recent reading's power — a
device with no readings contributing 0 — presented voltage as the
(rounded) maximum of the most-recent voltages, 0 when no device reports
one, and today/month cost as the Rate Calculator applied once to the
(rounded) sum across devices of window consumption; on the concrete
two-device instance the building-level bill (1294.5 for 200 kWh) differs
from the sum of per-device bills (1149), and the presented voltage is the
maximum 231, not a sum or average. -/
theorem aggregate_totals_spec (env : StoreEnv) (now : CivilDT)
    (devices : List String) :
    (aggregate_totals_all_devices env now devices).1 =
      round2 ((devices.map fun did =>
        (latest_power_voltage env did).1).sum) ∧
    (∀ did, env.latest1 did = [] → latest_power_voltage env did = (0, none)) ∧
    ((devices.filterMap fun did => (latest_power_voltage env did).2) = [] →
      (aggregate_totals_all_devices env now devices).2.1 = 0) ∧
    ((devices.filterMap fun did => (latest_power_voltage env did).2) ≠ [] →
      (aggregate_totals_all_devices env now devices).2.1 =
        round2 (colMax (devices.filterMap fun did =>
          (latest_power_voltage env did).2)) ∧
      IsGreatest {x | x ∈ devices.filterMap fun did =>
          (latest_power_voltage env did).2}
        (colMax (devices.filterMap fun did =>
          (latest_power_voltage env did).2))) ∧
    (aggregate_totals_all_devices env now devices).2.2.2.1 =
      bd_domestic_bill (round3 ((devices.map fun did =>
        units_between (range_docs env did (day_window_local now).1
          (day_window_local now).2)).sum)) ∧
    (aggregate_totals_all_devices env now devices).2.2.2.2.2 =
      bd_domestic_bill (round3 ((devices.map fun did =>
        units_between (range_docs env did (month_window_local now).1
          (month_window_local now).2)).sum)) ∧
    (aggregate_totals_all_devices cEnv8 cNow8 ["a", "b"]).2.2.2.1 = 1294.5 ∧
    ((["a", "b"] : List String).map fun did => bd_domestic_bill
      (round3 (units_between (range_docs cEnv8 did
        (day_window_local cNow8).1 (day_window_local cNow8).2)))).sum =
      1149 ∧
    (aggregate_totals_all_devices cEnv8 cNow8 ["a", "b"]).2.1 = 231 := by
  have hunitsA : units_between (range_docs cEnv8 "a" (day_window_local cNow8).1
      (day_window_local cNow8).2) = 100 := by
    have hr : range_docs cEnv8 "a" (day_window_local cNow8).1
        (day_window_local cNow8).2 =
        [⟨toNaiveUTC ⟨2025, 3, 10, 1, 0, 0, 0⟩, none, none, some 0⟩,
         ⟨toNaiveUTC ⟨2025, 3, 10, 11, 0, 0, 0⟩, none, none, some 100⟩] := by
      decide
    rw [hr]
    norm_num [units_between, colMax, colMin, List.filterMap, max_def, min_def]
  have hunitsB : units_between (range_docs cEnv8 "b" (day_window_local cNow8).1
      (day_window_local cNow8).2) = 100 := by
    have hr : range_docs cEnv8 "b" (day_window_local cNow8).1
        (day_window_local cNow8).2 =
        [⟨toNaiveUTC ⟨2025, 3, 10, 2, 0, 0, 0⟩, none, none, some 50⟩,
         ⟨toNaiveUTC ⟨2025, 3, 10, 10, 0, 0, 0⟩, none, none, some 150⟩] := by
      decide
    rw [hr]
    norm_num [units_between, colMax, colMin, List.filterMap, max_def, min_def]
  refine ⟨aggregate_power_eq env now devices, ?_, ?_, ?_,
    aggregate_today_bill_eq env now devices,
    aggregate_month_bill_eq env now devices, ?_, ?_, ?_⟩
  · intro did h
    simp [latest_power_voltage, h]
  · intro h
    rw [aggregate_voltage_eq, h]
    rfl
  · intro h
    refine ⟨?_, colMax_mem _ h, fun b hb => le_colMax _ b hb⟩
    rw [aggregate_voltage_eq]
    rcases hl : (devices.filterMap fun did =>
        (latest_power_voltage env did).2) with _ | ⟨v, vs⟩
    · exact absurd hl h
    · simp
  · rw [aggregate_today_bill_eq]
    simp only [List.map_cons, List.map_nil, List.sum_cons, List.sum_nil,
      hunitsA, hunitsB]
    norm_num [round3, round_eq]
    norm_num [bd_domestic_bill, round2, round_eq, slabWalk, slabs]
  · simp only [List.map_cons, List.map_nil, List.sum_cons, List.sum_nil,
      hunitsA, hunitsB]
    norm_num [round3, round_eq]
    norm_num [bd_domestic_bill, round2, round_eq, slabWalk, slabs]
  · rw [aggregate_voltage_eq]
    have hfm : ((["a", "b"] : List String).filterMap fun did =>
        (latest_power_voltage cEnv8 did).2) = [231, 225] := by decide
    rw [hfm]
    norm_num [colMax, max_def, round2, round_eq, List.isEmpty]

/-- Witness for C8 at the concrete two-device store. -/
theorem aggregate_totals_spec_witness :
    (aggregate_totals_all_devices cEnv8 cNow8 ["a", "b"]).2.1 =
      round2 (colMax (((["a", "b"] : List String)).filterMap fun did =>
        (latest_power_voltage cEnv8 did).2)) :=
  ((aggregate_totals_spec cEnv8 cNow8 ["a", "b"]).2.2.2.1
    (by decide)).1

/-- Witness for C7 on a concrete three-reading window and a reordering. -/
theorem units_between_spec_witness :
    units_between
        [⟨0, none, none, some 10⟩, ⟨1, none, none, some 15⟩,
         ⟨2, none, none, some 12⟩] =
      units_between
        [⟨1, none, none, some 15⟩, ⟨2, none, none, some 12⟩,
         ⟨0, none, none, some 10⟩] ∧
    units_between
        [⟨0, none, none, some 10⟩, ⟨1, none, none, some 15⟩,
         ⟨2, none, none, some 12⟩] =
      colMax [10, 15, 12] - colMin [10, 15, 12] := by
  have h := units_between_spec
    [⟨0, none, none, some 10⟩, ⟨1, none, none, some 15⟩,
     ⟨2, none, none, some 12⟩]
    [⟨1, none, none, some 15⟩, ⟨2, none, none, some 12⟩,
     ⟨0, none, none, some 10⟩]
    (by decide)
  exact ⟨h.2.2.2, (h.2.2.1 (by decide) (by decide)).1⟩

end EnergyApp
